import Mathlib

/-!
Shallow embedding of the fiber/scheduler/timer/io-reactor runtime
(`src/fiber_lib`) and proofs about its claims.

Machine integers are modelled as `Nat`/`Int`; pointers as `Option` of an
identifier; callbacks as `Option Nat` (an opaque callback identity, `none`
standing for a null `std::function`).  Code paths that end in a failed
`assert` (process abort) or an error return are modelled with `Option`.
-/

namespace Coroutine

/-! ## Fiber (src/fiber_lib/fiber/fiber.h, fiber.cpp) -/

/-- Source `Fiber::State` (fiber.h:28): READY, RUNNING, TERM. -/
inductive FiberState
| READY
| RUNNING
| TERM
deriving DecidableEq, Repr

/-- A fiber object: its id (`m_id`), state (`m_state`) and the
`m_run_in_scheduler` flag.  The machine context, stack buffer and entry
callable do not affect the claims and are not modelled. -/
structure Fiber where
  m_id : Nat
  m_state : FiberState
  m_run_in_scheduler : Bool
deriving DecidableEq, Repr

/-- The three thread-local slots of fiber.cpp:8-12: `t_fiber` (raw pointer to
the running fiber, modelled by its id), `t_thread_fiber` (the root fiber) and
`t_scheduler_fiber`.  A null pointer is `none`. -/
structure ThreadLocals where
  t_fiber : Option Nat
  t_thread_fiber : Option Nat
  t_scheduler_fiber : Option Nat
deriving DecidableEq, Repr

/-- Source `Fiber::GetFiberId` (fiber.cpp:43-47): if `t_fiber` is set, return its id,
else `(uint64_t)-1`.  The function only reads the thread-local slots, so the
model returns them unchanged alongside the result. -/
def Fiber.GetFiberId (ls : ThreadLocals) : Nat × ThreadLocals :=
  match ls.t_fiber with
  | some i => (i, ls)
  | none => (2 ^ 64 - 1, ls)

/-- Source `Fiber::resume` (fiber.cpp:132-153): asserts `m_state == READY` (a failed
assert aborts, modelled as `none`), sets the state to RUNNING, and in both
branches calls `SetThis(this)` before swapping contexts.  The context swap
itself is not modelled. -/
def Fiber.resume (f : Fiber) (ls : ThreadLocals) : Option (Fiber × ThreadLocals) :=
  if f.m_state ≠ FiberState.READY then none
  else
    some ({ f with m_state := FiberState.RUNNING }, { ls with t_fiber := some f.m_id })

/-- Source `Fiber::yield` (fiber.cpp:158-182): asserts `m_state == RUNNING || m_state
== TERM`; if the state is not TERM it becomes READY; then `SetThis` installs
the scheduler fiber when `m_run_in_scheduler`, else the thread's root fiber,
before swapping contexts. -/
def Fiber.yield (f : Fiber) (ls : ThreadLocals) : Option (Fiber × ThreadLocals) :=
  if ¬(f.m_state = FiberState.RUNNING ∨ f.m_state = FiberState.TERM) then none
  else
    let f' := if f.m_state ≠ FiberState.TERM then { f with m_state := FiberState.READY } else f
    let target := if f.m_run_in_scheduler then ls.t_scheduler_fiber else ls.t_thread_fiber
    some (f', { ls with t_fiber := target })

/-- C9: `resume()` succeeds exactly from state READY and then sets the state
to RUNNING while making the fiber the thread-current fiber; `yield()` succeeds
exactly from state RUNNING or TERM and, when the state is RUNNING, sets it to
READY while switching the current fiber to the scheduler fiber
(`m_run_in_scheduler`) or the thread-root fiber. -/
theorem resume_yield_state_spec (f : Fiber) (ls : ThreadLocals) :
    ((f.resume ls).isSome ↔ f.m_state = FiberState.READY) ∧
    (∀ f' ls', f.resume ls = some (f', ls') →
      f'.m_state = FiberState.RUNNING ∧ ls'.t_fiber = some f.m_id) ∧
    ((f.yield ls).isSome ↔ (f.m_state = FiberState.RUNNING ∨ f.m_state = FiberState.TERM)) ∧
    (∀ f' ls', f.yield ls = some (f', ls') → f.m_state = FiberState.RUNNING →
      f'.m_state = FiberState.READY ∧
      ls'.t_fiber = if f.m_run_in_scheduler then ls.t_scheduler_fiber else ls.t_thread_fiber) := by
  refine ⟨?_, ?_, ?_, ?_⟩
  · unfold Fiber.resume
    rcases f with ⟨i, s, r⟩
    cases s <;> simp
  · intro f' ls' h
    unfold Fiber.resume at h
    rcases f with ⟨i, s, r⟩
    cases s <;> simp_all
    obtain ⟨h1, h2⟩ := h
    subst h1
    subst h2
    exact ⟨rfl, rfl⟩
  · unfold Fiber.yield
    rcases f with ⟨i, s, r⟩
    cases s <;> simp
  · intro f' ls' h hrun
    unfold Fiber.yield at h
    rcases f with ⟨i, s, r⟩
    cases s <;> simp_all
    obtain ⟨h1, h2⟩ := h
    subst h1
    subst h2
    exact ⟨rfl, rfl⟩

/-- Witness for `resume_yield_state_spec` at a concrete fiber. -/
theorem resume_yield_state_spec_witness :
    ((Fiber.resume ⟨5, FiberState.READY, true⟩ ⟨none, some 0, some 1⟩).isSome ↔
      FiberState.READY = FiberState.READY) ∧
    (∀ f' ls', Fiber.resume ⟨5, FiberState.READY, true⟩ ⟨none, some 0, some 1⟩ = some (f', ls') →
      f'.m_state = FiberState.RUNNING ∧ ls'.t_fiber = some 5) ∧
    ((Fiber.yield ⟨5, FiberState.READY, true⟩ ⟨none, some 0, some 1⟩).isSome ↔
      (FiberState.READY = FiberState.RUNNING ∨ FiberState.READY = FiberState.TERM)) ∧
    (∀ f' ls', Fiber.yield ⟨5, FiberState.READY, true⟩ ⟨none, some 0, some 1⟩ = some (f', ls') →
      FiberState.READY = FiberState.RUNNING →
      f'.m_state = FiberState.READY ∧
      ls'.t_fiber = if true then some 1 else some 0) :=
  resume_yield_state_spec ⟨5, FiberState.READY, true⟩ ⟨none, some 0, some 1⟩

/-- C10: on a thread whose `t_fiber` slot is null, `GetFiberId` returns
`(uint64_t)-1 = 2^64 - 1` and leaves every thread-local slot unchanged (in
particular it creates no root fiber). -/
theorem getFiberId_no_current (ls : ThreadLocals) (h : ls.t_fiber = none) :
    Fiber.GetFiberId ls = (2 ^ 64 - 1, ls) := by
  unfold Fiber.GetFiberId
  rw [h]

/-- Witness for `getFiberId_no_current` at a concrete thread-local state. -/
theorem getFiberId_no_current_witness :
    Fiber.GetFiberId ⟨none, some 3, some 4⟩ = (2 ^ 64 - 1, ⟨none, some 3, some 4⟩) :=
  getFiberId_no_current ⟨none, some 3, some 4⟩ rfl

/-! ## Timer (src/fiber_lib/timer/timer.h, timer.cpp)

Timestamps (`std::chrono::system_clock::time_point`) are modelled as `Int`
milliseconds; the wall clock reading `now` is an explicit parameter.  A
`std::function` callback is an `Option Nat` (callback identity, `none` for
null).  Each `Timer` carries an `oid` standing for the address of the
heap-allocated object, so that distinct timer objects stay distinguishable. -/

/-- Timer fields (timer.h:29-39): `m_recurring`, `m_ms`, `m_next`, `m_cb`,
plus `oid`, the object identity of the `shared_ptr` target. -/
structure Timer where
  m_recurring : Bool
  m_ms : Nat
  m_next : Int
  m_cb : Option Nat
  oid : Nat
deriving DecidableEq, Repr

/-- Source `Timer::Comparator::operator()` (timer.cpp:91-94): compares two timers by
`m_next` only; there is no tie-break. -/
def Timer.Comparator (lhs rhs : Timer) : Bool :=
  decide (lhs.m_next < rhs.m_next)

/-- Two timers are equivalent for the ordered set exactly when the comparator
orders neither before the other, i.e. when their `m_next` values are equal. -/
def setEquiv (a b : Timer) : Bool :=
  !Timer.Comparator a b && !Timer.Comparator b a

/-- Modelled from the spec: the `TimerManager` class declaration is absent
from `timer.h` (the header ends after `Timer`), so the container holding the
timers is taken from the spec's words "entries are kept in a set", i.e. a C++
`std::set` ordered by `Timer::Comparator` (timer.cpp): a sorted list in which
`insert` is a no-op when an element equivalent to the new one is already
present. -/
def setInsert (t : Timer) : List Timer → List Timer
  | [] => [t]
  | x :: xs =>
    if Timer.Comparator t x then t :: x :: xs
    else if Timer.Comparator x t then x :: setInsert t xs
    else x :: xs

/-- Modelled from the spec: `std::set::find` over the missing `TimerManager`
container — returns the first element equivalent (equal `m_next`) to the key,
which on a set with pairwise-distinct keys is the unique such element. -/
def setFind (t : Timer) (ts : List Timer) : Option Timer :=
  ts.find? (fun x => setEquiv x t)

/-- Modelled from the spec: `std::set::erase(find(t))` — removes the first
element equivalent to `t`. -/
def setEraseEquiv (t : Timer) : List Timer → List Timer
  | [] => []
  | x :: xs => if setEquiv x t then xs else x :: setEraseEquiv t xs

/-- TimerManager state: the ordered set `m_timers`, the `m_tickled` debounce
flag and `m_previouseTime` (last observed wall clock, timer.cpp:97). -/
structure TimerManager where
  m_timers : List Timer
  m_tickled : Bool
  m_previouseTime : Int
deriving DecidableEq, Repr

/-- Source `TimerManager::addTimer(shared_ptr<Timer>)` (timer.cpp:133-148): insert
into the set; `at_front` holds when the insert position is `begin()` and
`m_tickled` is false, in which case `m_tickled` is set and
`onTimerInsertedAtFront` is called (the returned `Bool`). -/
def TimerManager.addTimer (tm : TimerManager) (timer : Timer) : TimerManager × Bool :=
  let ts := setInsert timer tm.m_timers
  let at_front :=
    (match ts with
     | [] => false
     | x :: _ => setEquiv x timer) && !tm.m_tickled
  ({ tm with m_timers := ts, m_tickled := tm.m_tickled || at_front }, at_front)

/-- Source `Timer::refresh` (timer.cpp:32-48) at clock reading `now`: null callback
or key not found in the set returns false; otherwise the found element is
erased, `m_next` becomes `now + m_ms` and this timer is re-inserted.  Returns
(result, the timer after the call, the manager after the call). -/
def Timer.refresh (now : Int) (t : Timer) (tm : TimerManager) :
    Bool × Timer × TimerManager :=
  if t.m_cb = none then (false, t, tm)
  else if setFind t tm.m_timers = none then (false, t, tm)
  else
    let ts := setEraseEquiv t tm.m_timers
    let t' := { t with m_next := now + (t.m_ms : Int) }
    (true, t', { tm with m_timers := setInsert t' ts })

/-- Source `Timer::reset` (timer.cpp:58-81) at clock reading `now`: if `ms == m_ms &&
!from_now` return true immediately (before any callback check); then null
callback or key not found returns false; otherwise erase, rebase the deadline
at `now` (if `from_now`) or at `m_next - m_ms`, set `m_ms := ms` and
re-insert via `TimerManager::addTimer`. -/
def Timer.reset (now : Int) (t : Timer) (ms : Nat) (from_now : Bool)
    (tm : TimerManager) : Bool × Timer × TimerManager :=
  if ms = t.m_ms ∧ from_now = false then (true, t, tm)
  else if t.m_cb = none then (false, t, tm)
  else if setFind t tm.m_timers = none then (false, t, tm)
  else
    let ts := setEraseEquiv t tm.m_timers
    let start := if from_now then now else t.m_next - (t.m_ms : Int)
    let t' := { t with m_ms := ms, m_next := start + (ms : Int) }
    let tm' := (TimerManager.addTimer { tm with m_timers := ts } t').1
    (true, t', tm')

/-- Source `TimerManager::detectClockRollover` (timer.cpp:200-209): rollover holds
when `now < m_previouseTime - 1 hour` (60*60*1000 ms); `m_previouseTime` is
updated to `now` in every call. -/
def TimerManager.detectClockRollover (now : Int) (tm : TimerManager) :
    Bool × TimerManager :=
  (decide (now < tm.m_previouseTime - 3600000), { tm with m_previouseTime := now })

/-- The `while` loop of `TimerManager::listExpiredCb` (timer.cpp:179-191),
with explicit fuel: while the set is nonempty and (rollover holds or the
front deadline is ≤ `now`), pop the front timer, append its callback to
`cbs`, and re-insert it with `m_next = now + m_ms` when recurring (else its
callback is nulled and it is dropped).  `none` means the fuel ran out, i.e.
the loop did not terminate within `fuel` iterations. -/
def listExpiredLoop (now : Int) (rollover : Bool) :
    Nat → List Timer → List (Option Nat) → Option (List (Option Nat) × List Timer)
  | 0, _, _ => none
  | fuel + 1, ts, cbs =>
    match ts with
    | [] => some (cbs, [])
    | x :: rest =>
      if rollover || decide (x.m_next ≤ now) then
        if x.m_recurring then
          listExpiredLoop now rollover fuel
            (setInsert { x with m_next := now + (x.m_ms : Int) } rest) (cbs ++ [x.m_cb])
        else
          listExpiredLoop now rollover fuel rest (cbs ++ [x.m_cb])
      else some (cbs, x :: rest)

/-- Source `TimerManager::listExpiredCb` (timer.cpp:172-192): read the clock, run
rollover detection (which records `now`), then drain with the loop above. -/
def TimerManager.listExpiredCb (now : Int) (fuel : Nat) (tm : TimerManager) :
    Option (List (Option Nat) × TimerManager) :=
  let r := tm.detectClockRollover now
  match listExpiredLoop now r.1 fuel r.2.m_timers [] with
  | none => none
  | some (cbs, ts) => some (cbs, { r.2 with m_timers := ts })

/-- The elements of the timer set, ordered strictly by deadline: the shape an
`std::set` under `Timer::Comparator` always has. -/
def setSortedNext (ts : List Timer) : Prop :=
  List.Pairwise (fun a b => a.m_next < b.m_next) ts

/-- Set-equivalence under the comparator is exactly equality of deadlines. -/
theorem setEquiv_iff (a b : Timer) : setEquiv a b = true ↔ a.m_next = b.m_next := by
  unfold setEquiv Timer.Comparator
  simp only [Bool.and_eq_true, Bool.not_eq_true', decide_eq_false_iff_not]
  omega

/-- Membership in the result of `setInsert`. -/
theorem mem_setInsert {y t : Timer} :
    ∀ {ts : List Timer}, y ∈ setInsert t ts → y = t ∨ y ∈ ts := by
  intro ts
  induction ts with
  | nil =>
    intro h
    unfold setInsert at h
    exact Or.inl (List.mem_singleton.mp h)
  | cons x xs ih =>
    intro h
    unfold setInsert at h
    by_cases h1 : Timer.Comparator t x = true
    · rw [if_pos h1] at h
      rcases List.mem_cons.mp h with h' | h'
      · exact Or.inl h'
      · exact Or.inr h'
    · rw [if_neg h1] at h
      by_cases h2 : Timer.Comparator x t = true
      · rw [if_pos h2] at h
        rcases List.mem_cons.mp h with h' | h'
        · exact Or.inr (List.mem_cons.mpr (Or.inl h'))
        · rcases ih h' with h'' | h''
          · exact Or.inl h''
          · exact Or.inr (List.mem_cons.mpr (Or.inr h''))
      · rw [if_neg h2] at h
        exact Or.inr h

/-- C4 counterexample: two distinct timers with equal deadlines are NOT both
kept in the set: the comparator (timer.cpp:91-94) compares `m_next` only, so
the second insert is a no-op and the second timer is absent. -/
theorem equal_deadline_second_timer_dropped :
    (⟨false, 10, 100, some 2, 1⟩ : Timer) ∉
      setInsert ⟨false, 10, 100, some 2, 1⟩ (setInsert ⟨false, 10, 100, some 1, 0⟩ []) ∧
    (⟨false, 10, 100, some 1, 0⟩ : Timer) ≠ ⟨false, 10, 100, some 2, 1⟩ := by
  decide

/-- C4 amended: the set orders timers by deadline alone (no identity
tie-break): insertion keeps the list strictly sorted by `m_next`, inserting a
timer whose deadline equals that of a member leaves the set unchanged (the
new timer is dropped), and a timer with a fresh deadline is inserted. -/
theorem setInsert_orders_by_deadline_only (t : Timer) (ts : List Timer)
    (h : setSortedNext ts) :
    setSortedNext (setInsert t ts) ∧
    ((∃ x ∈ ts, x.m_next = t.m_next) → setInsert t ts = ts) ∧
    ((∀ x ∈ ts, x.m_next ≠ t.m_next) → t ∈ setInsert t ts) := by
  induction ts with
  | nil =>
    refine ⟨by simp [setInsert, setSortedNext], by simp, by simp [setInsert]⟩
  | cons x xs ih =>
    rw [setSortedNext, List.pairwise_cons] at h
    obtain ⟨hx, hxs⟩ := h
    obtain ⟨ih1, ih2, ih3⟩ := ih hxs
    by_cases h1 : Timer.Comparator t x = true
    · have htx : t.m_next < x.m_next := by
        unfold Timer.Comparator at h1; exact of_decide_eq_true h1
      have hins : setInsert t (x :: xs) = t :: x :: xs := by
        unfold setInsert; rw [if_pos h1]
      refine ⟨?_, ?_, ?_⟩
      · rw [hins, setSortedNext, List.pairwise_cons]
        refine ⟨?_, List.Pairwise.cons hx hxs⟩
        intro y hy
        rcases List.mem_cons.mp hy with hy' | hy'
        · subst hy'; omega
        · have := hx y hy'; omega
      · rintro ⟨y, hy, hyn⟩
        rcases List.mem_cons.mp hy with hy' | hy'
        · subst hy'; omega
        · have := hx y hy'; omega
      · intro _
        rw [hins]
        exact List.mem_cons_self t _
    · by_cases h2 : Timer.Comparator x t = true
      · have hxt : x.m_next < t.m_next := by
          unfold Timer.Comparator at h2; exact of_decide_eq_true h2
        have hins : setInsert t (x :: xs) = x :: setInsert t xs := by
          simp only [setInsert]
          rw [if_neg h1, if_pos h2]
        refine ⟨?_, ?_, ?_⟩
        · rw [hins, setSortedNext, List.pairwise_cons]
          refine ⟨?_, ih1⟩
          intro y hy
          rcases mem_setInsert hy with hy' | hy'
          · subst hy'; omega
          · exact hx y hy'
        · rintro ⟨y, hy, hyn⟩
          rcases List.mem_cons.mp hy with hy' | hy'
          · subst hy'; omega
          · rw [hins, ih2 ⟨y, hy', hyn⟩]
        · intro hall
          rw [hins]
          exact List.mem_cons_of_mem x (ih3 fun y hy => hall y (List.mem_cons_of_mem x hy))
      · have heq : x.m_next = t.m_next := by
          have e1 : ¬ t.m_next < x.m_next := by simpa [Timer.Comparator] using h1
          have e2 : ¬ x.m_next < t.m_next := by simpa [Timer.Comparator] using h2
          omega
        have hins : setInsert t (x :: xs) = x :: xs := by
          unfold setInsert; rw [if_neg h1, if_neg h2]
        refine ⟨?_, ?_, ?_⟩
        · rw [hins, setSortedNext, List.pairwise_cons]
          exact ⟨hx, hxs⟩
        · intro _
          exact hins
        · intro hall
          exact absurd heq (hall x (List.mem_cons_self x xs))

/-- Witness for `setInsert_orders_by_deadline_only` at a concrete timer and
set. -/
theorem setInsert_orders_by_deadline_only_witness :
    setSortedNext (setInsert ⟨false, 5, 50, some 1, 7⟩ [⟨false, 5, 100, some 2, 8⟩]) ∧
    ((∃ x ∈ ([⟨false, 5, 100, some 2, 8⟩] : List Timer), x.m_next = (50 : Int)) →
      setInsert ⟨false, 5, 50, some 1, 7⟩ [⟨false, 5, 100, some 2, 8⟩] =
        [⟨false, 5, 100, some 2, 8⟩]) ∧
    ((∀ x ∈ ([⟨false, 5, 100, some 2, 8⟩] : List Timer), x.m_next ≠ (50 : Int)) →
      (⟨false, 5, 50, some 1, 7⟩ : Timer) ∈
        setInsert ⟨false, 5, 50, some 1, 7⟩ [⟨false, 5, 100, some 2, 8⟩]) :=
  setInsert_orders_by_deadline_only ⟨false, 5, 50, some 1, 7⟩ [⟨false, 5, 100, some 2, 8⟩]
    (by rw [setSortedNext]; exact List.pairwise_singleton _ _)

/-- C6 counterexample: a timer that is absent from the set is successfully
refreshed (returns true) when some member of the set happens to share its
deadline, because `std::set::find` under the deadline-only comparator locates
that equivalent member. -/
theorem refresh_true_for_absent_timer :
    (Timer.refresh 200 ⟨false, 50, 100, some 2, 1⟩
      ⟨[⟨false, 10, 100, some 1, 0⟩], false, 0⟩).1 = true ∧
    (⟨false, 50, 100, some 2, 1⟩ : Timer) ∉ ([⟨false, 10, 100, some 1, 0⟩] : List Timer) := by
  decide

/-- C6 amended: when `refresh()` returns true the timer's new deadline is
`now + m_ms`, which is ≥ the old deadline whenever the old deadline was at
most `now + m_ms` (i.e. the clock has not stepped back past the deadline's
base); `refresh` returns false when the callback is null, and returns false
when no timer in the set shares this timer's deadline — absence from the set
alone does not force false (see the counterexample). -/
theorem refresh_semantics (now : Int) (t : Timer) (tm : TimerManager) :
    ((Timer.refresh now t tm).1 = true →
      (Timer.refresh now t tm).2.1.m_next = now + (t.m_ms : Int) ∧
      (t.m_next ≤ now + (t.m_ms : Int) → t.m_next ≤ (Timer.refresh now t tm).2.1.m_next)) ∧
    (t.m_cb = none → (Timer.refresh now t tm).1 = false) ∧
    ((∀ x ∈ tm.m_timers, x.m_next ≠ t.m_next) → (Timer.refresh now t tm).1 = false) := by
  by_cases hcb : t.m_cb = none
  · have hr : Timer.refresh now t tm = (false, t, tm) := by
      unfold Timer.refresh
      rw [if_pos hcb]
    rw [hr]
    refine ⟨?_, ?_, ?_⟩
    · intro h
      simp at h
    · intro _
      rfl
    · intro _
      rfl
  · by_cases hf : setFind t tm.m_timers = none
    · have hr : Timer.refresh now t tm = (false, t, tm) := by
        unfold Timer.refresh
        rw [if_neg hcb, if_pos hf]
      rw [hr]
      refine ⟨?_, ?_, ?_⟩
      · intro h
        simp at h
      · intro _
        rfl
      · intro _
        rfl
    · have hr : Timer.refresh now t tm =
          (true, { t with m_next := now + (t.m_ms : Int) },
            { tm with m_timers :=
              setInsert { t with m_next := now + (t.m_ms : Int) } (setEraseEquiv t tm.m_timers) }) := by
        unfold Timer.refresh
        rw [if_neg hcb, if_neg hf]
      rw [hr]
      refine ⟨fun _ => ⟨rfl, fun hle => hle⟩, fun h => absurd h hcb, ?_⟩
      intro hall
      exfalso
      apply hf
      unfold setFind
      rw [List.find?_eq_none]
      intro x hx
      simp only [setEquiv_iff]
      exact hall x hx

/-- Witness for `refresh_semantics`: refreshing a timer that is in the set at
time 200 succeeds, sets the deadline to 210 and does not decrease it. -/
theorem refresh_semantics_witness :
    (Timer.refresh 200 ⟨false, 10, 100, some 1, 0⟩
      ⟨[⟨false, 10, 100, some 1, 0⟩], false, 0⟩).1 = true ∧
    (Timer.refresh 200 ⟨false, 10, 100, some 1, 0⟩
      ⟨[⟨false, 10, 100, some 1, 0⟩], false, 0⟩).2.1.m_next = 200 + ((10 : Nat) : Int) ∧
    (100 : Int) ≤ (Timer.refresh 200 ⟨false, 10, 100, some 1, 0⟩
      ⟨[⟨false, 10, 100, some 1, 0⟩], false, 0⟩).2.1.m_next :=
  ⟨by decide,
    ((refresh_semantics 200 ⟨false, 10, 100, some 1, 0⟩
      ⟨[⟨false, 10, 100, some 1, 0⟩], false, 0⟩).1 (by decide)).1,
    ((refresh_semantics 200 ⟨false, 10, 100, some 1, 0⟩
      ⟨[⟨false, 10, 100, some 1, 0⟩], false, 0⟩).1 (by decide)).2 (by decide)⟩

/-- C7 (code bug): `reset(ms, from_now)` on a cancelled timer (null callback)
returns TRUE when `ms` equals the current period and `from_now` is false: the
idempotence early-return at timer.cpp:59-61 runs before the callback check at
timer.cpp:65, contradicting the function's own doc comment, which promises
false whenever the callback is null. -/
theorem reset_cancelled_same_period_returns_true :
    (Timer.reset 999 ⟨false, 100, 500, none, 0⟩ 100 false ⟨[], false, 0⟩).1 = true := by
  decide

/-- Under rollover, a recurring timer that is popped is immediately
re-inserted with deadline `now + m_ms` and popped again in the next
iteration, so the drain loop makes no progress no matter how much fuel it is
given. -/
theorem rollover_loop_diverges (n : Nat) :
    ∀ cbs, listExpiredLoop 0 true n [⟨true, 5, 5, some 0, 0⟩] cbs = none := by
  induction n with
  | zero => intro cbs; rfl
  | succ n ih =>
    intro cbs
    have hstep : listExpiredLoop 0 true (n + 1) [⟨true, 5, 5, some 0, 0⟩] cbs =
        listExpiredLoop 0 true n [⟨true, 5, 5, some 0, 0⟩] (cbs ++ [some 0]) := rfl
    rw [hstep]
    exact ih _

/-- C8 (code bug): with the wall clock more than one hour behind the last
observed time (rollover), a drain of a set holding one recurring timer never
terminates: `listExpiredCb` re-inserts the recurring timer with `m_next = now
+ m_ms` and the loop condition `rollover || ...` immediately re-pops it, for
any amount of fuel. -/
theorem rollover_drain_diverges_on_recurring (fuel : Nat) :
    TimerManager.listExpiredCb 0 fuel
      ⟨[⟨true, 5, 1000, some 0, 0⟩], false, 10000000000⟩ = none := by
  cases fuel with
  | zero => rfl
  | succ n =>
    have h2 : listExpiredLoop 0 true (n + 1) [⟨true, 5, 1000, some 0, 0⟩] [] = none := by
      have h1 : listExpiredLoop 0 true (n + 1) [⟨true, 5, 1000, some 0, 0⟩] [] =
          listExpiredLoop 0 true n [⟨true, 5, 5, some 0, 0⟩] [some 0] := rfl
      rw [h1]
      exact rollover_loop_diverges n [some 0]
    unfold TimerManager.listExpiredCb TimerManager.detectClockRollover
    norm_num
    rw [h2]

/-! ## Scheduler (src/fiber_lib/scheduler/scheduler.h, scheduler.cpp) -/

/-- Source `Scheduler::ScheduleTask` (scheduler.h:74-115): a fiber or a callback
(`assert(it->fiber || it->cb)` guarantees at least one is set on dequeue) plus
the pinned thread id, `-1` meaning any thread. -/
structure ScheduleTask where
  fiber : Option Fiber
  cb : Option Nat
  thread : Int
deriving DecidableEq, Repr

/-- A task may be taken by the worker with id `tid` when `thread == -1 ||
thread == thread_id` (scheduler.cpp:104). -/
def taskMatches (tid : Int) (t : ScheduleTask) : Bool :=
  t.thread = -1 || t.thread = tid

/-- The dequeue scan of `Scheduler::run` (scheduler.cpp:99-119) on the task
FIFO: walk from the front; a task pinned to another thread is skipped and
sets `tickle_me`; the first matching task is removed and returned; finally
`tickle_me` is also set if a task remains beyond the point of removal
(scheduler.cpp:119 reads `tickle_me = tickle || (it != m_tasks.end())`, where
the bare member-function name `tickle` is read as the obvious `tickle_me`,
since a non-static member function is not a value in that position).  Returns
(selected task, remaining queue, tickle_me). -/
def scanTasks (tid : Int) : List ScheduleTask → Option ScheduleTask × List ScheduleTask × Bool
  | [] => (none, [], false)
  | t :: ts =>
    if t.thread ≠ -1 ∧ t.thread ≠ tid then
      let r := scanTasks tid ts
      (r.1, t :: r.2.1, true)
    else
      (some t, ts, !ts.isEmpty)

/-- C5: the scan selects the first FIFO task whose pinned thread is `-1` or
the worker's own id, and `tickle_me` is set exactly when an earlier task
pinned to a different thread was skipped or a task remains in the queue after
the selection — equivalently, when the remaining queue is nonempty. -/
theorem scheduler_selects_first_matching (tid : Int) (tasks : List ScheduleTask) :
    (scanTasks tid tasks).1 = tasks.find? (taskMatches tid) ∧
    ((scanTasks tid tasks).2.2 = true ↔
      (tasks.takeWhile (fun t => !taskMatches tid t) ≠ [] ∨ (scanTasks tid tasks).2.1 ≠ [])) ∧
    ((scanTasks tid tasks).2.2 = true ↔ (scanTasks tid tasks).2.1 ≠ []) := by
  induction tasks with
  | nil =>
    refine ⟨rfl, ?_, ?_⟩ <;> simp [scanTasks]
  | cons t ts ih =>
    obtain ⟨ih1, ih2, ih3⟩ := ih
    by_cases hm : taskMatches tid t = true
    · have hskip : ¬(t.thread ≠ -1 ∧ t.thread ≠ tid) := by
        unfold taskMatches at hm
        rcases Bool.or_eq_true_iff.mp hm with h | h
        · exact fun hc => hc.1 (by exact_mod_cast of_decide_eq_true h)
        · exact fun hc => hc.2 (by exact_mod_cast of_decide_eq_true h)
      have hr : scanTasks tid (t :: ts) = (some t, ts, !ts.isEmpty) := by
        unfold scanTasks
        rw [if_neg hskip]
      rw [hr]
      refine ⟨?_, ?_, ?_⟩
      · rw [List.find?_cons_of_pos _ hm]
      · rw [List.takeWhile_cons_of_neg (by simp [hm])]
        constructor
        · intro h
          exact Or.inr (by simpa [List.isEmpty_iff] using h)
        · intro h
          rcases h with h | h
          · exact absurd rfl h
          · simpa [List.isEmpty_iff] using h
      · constructor
        · intro h
          simpa [List.isEmpty_iff] using h
        · intro h
          simpa [List.isEmpty_iff] using h
    · have hskip : t.thread ≠ -1 ∧ t.thread ≠ tid := by
        unfold taskMatches at hm
        constructor
        · intro hc
          exact hm (by simp [hc])
        · intro hc
          exact hm (by simp [hc])
      have hr : scanTasks tid (t :: ts) =
          ((scanTasks tid ts).1, t :: (scanTasks tid ts).2.1, true) := by
        simp only [scanTasks]
        rw [if_pos hskip]
      rw [hr]
      refine ⟨?_, ?_, ?_⟩
      · rw [List.find?_cons_of_neg _ (by simpa using hm)]
        exact ih1
      · simp [List.takeWhile_cons_of_pos (by simp [hm] : (!taskMatches tid t) = true)]
      · simp

/-- Lock identities appearing in a worker-loop iteration: the scheduler's
`m_mutex` (which protects the task queue, scheduler.h:119) or a fiber
object's own `m_mutex` (fiber.h:35). -/
inductive LockId
| queue
| fiberLock (id : Nat)
deriving DecidableEq, Repr

/-- Observable events of one iteration of `Scheduler::run`: acquiring and
releasing a mutex, resuming a fiber, and calling `tickle()`. -/
inductive Ev
| lock (l : LockId)
| unlock (l : LockId)
| resumeEv (fiberId : Nat)
| tickleEv
deriving DecidableEq, Repr

/-- One iteration of the worker loop of `Scheduler::run` (scheduler.cpp:93-157)
as the sequence of events it performs, plus the queue it leaves behind.  The
dequeue scan runs under `m_mutex` (line 98); `tickle()` is called after the
release when `tickle_me` (lines 122-124); a fiber-carrying task is resumed
under a fresh `lock_guard` on the same `m_mutex` (lines 129-133) unless the
fiber is TERM (then the lock is still taken, the resume skipped); a callback
task is wrapped in a fresh fiber (id `newFiberId`) and resumed under that
fiber's own `m_mutex` (lines 140-143); with no task, the idle fiber is
resumed with no lock held (line 154), unless it is TERM (loop exit, lines
150-151). -/
def runIterationTrace (tasks : List ScheduleTask) (tid : Int) (newFiberId : Nat)
    (idleState : FiberState) (idleId : Nat) : List Ev × List ScheduleTask :=
  let r := scanTasks tid tasks
  let scanEvs := [Ev.lock LockId.queue, Ev.unlock LockId.queue]
  let tickleEvs := if r.2.2 then [Ev.tickleEv] else []
  let bodyEvs :=
    match r.1 with
    | some task =>
      match task.fiber with
      | some f =>
        if f.m_state ≠ FiberState.TERM then
          [Ev.lock LockId.queue, Ev.resumeEv f.m_id, Ev.unlock LockId.queue]
        else
          [Ev.lock LockId.queue, Ev.unlock LockId.queue]
      | none =>
        match task.cb with
        | some _ =>
          [Ev.lock (LockId.fiberLock newFiberId), Ev.resumeEv newFiberId,
            Ev.unlock (LockId.fiberLock newFiberId)]
        | none => []
    | none =>
      if idleState = FiberState.TERM then [] else [Ev.resumeEv idleId]
  (scanEvs ++ tickleEvs ++ bodyEvs, r.2.1)

/-- Scans an event trace and reports whether some `resume` happens while the
task-queue mutex is held (the Bool argument carries the current hold state). -/
def resumeWhileQueueLocked : List Ev → Bool → Bool
  | [], _ => false
  | Ev.lock LockId.queue :: es, _ => resumeWhileQueueLocked es true
  | Ev.unlock LockId.queue :: es, _ => resumeWhileQueueLocked es false
  | Ev.resumeEv _ :: es, h => h || resumeWhileQueueLocked es h
  | _ :: es, h => resumeWhileQueueLocked es h

/-- Scans an event trace and reports whether some `resume` happens while some
fiber's own mutex is held. -/
def resumeWhileFiberLocked : List Ev → Bool → Bool
  | [], _ => false
  | Ev.lock (LockId.fiberLock _) :: es, _ => resumeWhileFiberLocked es true
  | Ev.unlock (LockId.fiberLock _) :: es, _ => resumeWhileFiberLocked es false
  | Ev.resumeEv _ :: es, h => h || resumeWhileFiberLocked es h
  | _ :: es, h => resumeWhileFiberLocked es h

/-- C3 counterexample: a worker iteration that dequeues a fiber-carrying task
(a READY fiber, unpinned) resumes that fiber WHILE holding the task-queue
mutex `m_mutex` — the lock_guard at scheduler.cpp:130 surrounds the
`resume()` at line 132. -/
theorem queue_mutex_held_across_resume_cex :
    resumeWhileQueueLocked
      (runIterationTrace [⟨some ⟨7, FiberState.READY, true⟩, none, -1⟩] 1 99
        FiberState.READY 50).1 false = true := by
  decide

/-- C3 amended: in a worker iteration the task-queue mutex is held across a
`resume()` exactly when the selected task carries a non-TERM fiber; a fiber's
own mutex is held across a `resume()` exactly when the selected task carries
a raw callback (which is wrapped in a fresh fiber). -/
theorem queue_mutex_across_resume_characterization (tasks : List ScheduleTask) (tid : Int)
    (newFiberId : Nat) (idleState : FiberState) (idleId : Nat) :
    (resumeWhileQueueLocked (runIterationTrace tasks tid newFiberId idleState idleId).1 false = true
      ↔ ∃ task f, (scanTasks tid tasks).1 = some task ∧ task.fiber = some f ∧
          f.m_state ≠ FiberState.TERM) ∧
    (resumeWhileFiberLocked (runIterationTrace tasks tid newFiberId idleState idleId).1 false = true
      ↔ ∃ task, (scanTasks tid tasks).1 = some task ∧ task.fiber = none ∧ task.cb.isSome) := by
  rcases hsel : (scanTasks tid tasks).1 with _ | task
  · by_cases ht : (scanTasks tid tasks).2.2 = true <;>
      by_cases hi : idleState = FiberState.TERM <;>
      constructor <;>
      simp [runIterationTrace, hsel, ht, hi, resumeWhileQueueLocked, resumeWhileFiberLocked]
  · rcases htf : task.fiber with _ | f
    · rcases htc : task.cb with _ | c
      · by_cases ht : (scanTasks tid tasks).2.2 = true <;>
          constructor <;>
          simp [runIterationTrace, hsel, htf, htc, ht,
            resumeWhileQueueLocked, resumeWhileFiberLocked]
      · by_cases ht : (scanTasks tid tasks).2.2 = true <;>
          constructor <;>
          simp [runIterationTrace, hsel, htf, htc, ht,
            resumeWhileQueueLocked, resumeWhileFiberLocked]
    · by_cases hterm : f.m_state = FiberState.TERM <;>
        by_cases ht : (scanTasks tid tasks).2.2 = true <;>
        constructor <;>
        simp [runIterationTrace, hsel, htf, hterm, ht,
          resumeWhileQueueLocked, resumeWhileFiberLocked]

/-! ## IOManager (src/fiber_lib/iomanager/ioscheduler.h, ioscheduler.cpp) -/

/-- Source `IOManager::Event` NONE (ioscheduler.h:14). -/
def NONE : Nat := 0x0

/-- Source `IOManager::Event` READ = EPOLLIN (ioscheduler.h:15). -/
def READ : Nat := 0x1

/-- Source `IOManager::Event` WRITE = EPOLLOUT (ioscheduler.h:16). -/
def WRITE : Nat := 0x4

/-- Linux EPOLLIN bit. -/
def EPOLLIN : Nat := 0x1

/-- Linux EPOLLOUT bit. -/
def EPOLLOUT : Nat := 0x4

/-- Linux EPOLLET (edge-triggered) bit. -/
def EPOLLET : Nat := 0x80000000

/-- The `epoll_ctl` operation issued (EPOLL_CTL_ADD / MOD / DEL). -/
inductive EpollOp
| ADD
| MOD
| DEL
deriving DecidableEq, Repr

/-- Source `FdContext::EventContext` (ioscheduler.h:26-30): the scheduler pointer
(modelled as a non-null flag), the fiber `shared_ptr` and the callback. -/
structure EventContext where
  scheduler : Bool
  fiber : Option Fiber
  cb : Option Nat
deriving DecidableEq, Repr

/-- Source `FdContext` (ioscheduler.h:24-44): read/write event contexts, the fd and
the bitmask of registered events. -/
structure FdContext where
  read : EventContext
  write : EventContext
  fd : Nat
  events : Nat
deriving DecidableEq, Repr

/-- Source `FdContext::getEventContext` (ioscheduler.cpp:19-28): returns the read or
write context; any other event value fails the assert (modelled `none`). -/
def FdContext.getEventContext (fdc : FdContext) (event : Nat) : Option EventContext :=
  if event = READ then some fdc.read
  else if event = WRITE then some fdc.write
  else none

/-- Writing back through the reference returned by `getEventContext`. -/
def FdContext.setEventContext (fdc : FdContext) (event : Nat) (ctx : EventContext) : FdContext :=
  if event = READ then { fdc with read := ctx }
  else if event = WRITE then { fdc with write := ctx }
  else fdc

/-- Source `FdContext::resetEventContext` (ioscheduler.cpp:31-35): null scheduler,
null callback, reset fiber. -/
def FdContext.resetEventContext : EventContext :=
  ⟨false, none, none⟩

/-- Source `FdContext::triggerEvent` (ioscheduler.cpp:38-51): asserts the event is
registered (`events & event`), removes it from `events`, enqueues the
context's callback if set, else its fiber (via `scheduleLock`, thread `-1`),
and resets the context.  `m_pendingEventCount` is a member of `IOManager`
which this `FdContext` method cannot reach, so no count appears here. -/
def FdContext.triggerEvent (fdc : FdContext) (event : Nat) : Option (FdContext × ScheduleTask) :=
  if fdc.events &&& event = 0 then none
  else
    match fdc.getEventContext event with
    | none => none
    | some ctx =>
      let events' := fdc.events &&& (0xFFFFFFFF ^^^ event)
      let task : ScheduleTask :=
        if ctx.cb.isSome then ⟨none, ctx.cb, -1⟩ else ⟨ctx.fiber, none, -1⟩
      some (FdContext.setEventContext { fdc with events := events' } event
        FdContext.resetEventContext, task)

/-- The `IOManager` state relevant to event registration: the atomic
`m_pendingEventCount` and the fd-context table `m_fdContexts`
(ioscheduler.h:78-80). -/
structure IOManagerState where
  m_pendingEventCount : Nat
  m_fdContexts : List FdContext
deriving DecidableEq, Repr

/-- A freshly constructed `FdContext` slot with its fd index
(ioscheduler.cpp:103-104). -/
def freshFdContext (i : Nat) : FdContext :=
  ⟨⟨false, none, none⟩, ⟨false, none, none⟩, i, NONE⟩

/-- Source `IOManager::contextResize` (ioscheduler.cpp:97-107): resize the table,
filling every null slot `i` with a fresh `FdContext` whose fd is `i`. -/
def IOManagerState.contextResize (st : IOManagerState) (size : Nat) : IOManagerState :=
  { st with m_fdContexts :=
      st.m_fdContexts.take size ++
        ((List.range size).drop (min st.m_fdContexts.length size)).map freshFdContext }

/-- The state constructed by the `IOManager` constructor
(ioscheduler.cpp:54-81): `contextResize(32)` on an empty table, no pending
events. -/
def initIOMState : IOManagerState :=
  IOManagerState.contextResize ⟨0, []⟩ 32

/-- Source `IOManager::addEvent` (ioscheduler.cpp:109-157) with the current fiber
(`Fiber::GetThis()`) passed explicitly and `epoll_ctl` assumed to succeed.
Grows the table to `fd * 2` when `fd` is out of range; returns `-1`
(modelled `none`) on a duplicate registration; fails the asserts (also
`none`) if the target context is populated or, when no callback is given, the
current fiber is not RUNNING.  On success returns the new state together with
the `epoll_ctl` operation (`MOD` if the fd had prior events, else `ADD`) and
the readiness mask passed to it, which the source fixes to
`EPOLLET | EPOLLIN | EPOLLOUT` (ioscheduler.cpp:135) regardless of the
registered events. -/
def IOManagerState.addEvent (st : IOManagerState) (fd : Nat) (event : Nat)
    (cb : Option Nat) (cur : Fiber) : Option (IOManagerState × EpollOp × Nat) :=
  let st1 := if fd < st.m_fdContexts.length then st else st.contextResize (fd * 2)
  match st1.m_fdContexts[fd]? with
  | none => none
  | some fd_ctx =>
    if fd_ctx.events &&& event ≠ 0 then none
    else
      let op := if fd_ctx.events ≠ NONE then EpollOp.MOD else EpollOp.ADD
      let mask := EPOLLET ||| EPOLLIN ||| EPOLLOUT
      match fd_ctx.getEventContext event with
      | none => none
      | some ectx =>
        if ectx.scheduler || ectx.fiber.isSome || ectx.cb.isSome then none
        else if cb.isNone ∧ cur.m_state ≠ FiberState.RUNNING then none
        else
          let ectx' : EventContext := ⟨true, if cb.isSome then none else some cur, cb⟩
          let fd_ctx' := FdContext.setEventContext
            { fd_ctx with events := fd_ctx.events ||| event } event ectx'
          some ({ st1 with
                    m_pendingEventCount := st1.m_pendingEventCount + 1,
                    m_fdContexts := st1.m_fdContexts.set fd fd_ctx' }, op, mask)

/-- Source `FdContext::triggerEvent` lifted to the `IOManager` state: the table entry
is rewritten; `m_pendingEventCount` is untouched because the `FdContext`
method cannot reach it. -/
def IOManagerState.triggerEvent (st : IOManagerState) (fd : Nat) (event : Nat) :
    Option (IOManagerState × ScheduleTask) :=
  match st.m_fdContexts[fd]? with
  | none => none
  | some fdc =>
    match fdc.triggerEvent event with
    | none => none
    | some r =>
      some ({ st with m_fdContexts := st.m_fdContexts.set fd r.1 }, r.2)

/-- An `EventContext` is registered when it holds a fiber or a callback. -/
def EventContext.registered (ctx : EventContext) : Bool :=
  ctx.fiber.isSome || ctx.cb.isSome

/-- Number of registered (fd, event) pairs in one `FdContext`. -/
def FdContext.registeredCount (fdc : FdContext) : Nat :=
  (if fdc.read.registered then 1 else 0) + (if fdc.write.registered then 1 else 0)

/-- Number of registered (fd, event) pairs in the whole table. -/
def IOManagerState.registeredCount (st : IOManagerState) : Nat :=
  (st.m_fdContexts.map FdContext.registeredCount).sum

/-- C1 counterexample: registering READ on an fd with no prior events passes
the constant mask `EPOLLET | EPOLLIN | EPOLLOUT` to `epoll_ctl`
(ioscheduler.cpp:135), which differs from the union of the previously
registered events with the new event (`NONE | READ`), and also from that
union with the edge-trigger flag added. -/
theorem addEvent_mask_not_union_cex :
    ((initIOMState.addEvent 3 READ (some 9) ⟨1, FiberState.RUNNING, true⟩).map
      (fun r => r.2.2)) = some (EPOLLET ||| EPOLLIN ||| EPOLLOUT) ∧
    EPOLLET ||| EPOLLIN ||| EPOLLOUT ≠ NONE ||| READ ∧
    EPOLLET ||| EPOLLIN ||| EPOLLOUT ≠ EPOLLET ||| (NONE ||| READ) := by
  decide

/-- C1 amended: whenever `addEvent` succeeds, the readiness mask it passes to
the OS reactor is the constant `EPOLLET | EPOLLIN | EPOLLOUT` — independent of
the fd's registered events — while the operation is `ADD` exactly when the fd
had no prior events and `MOD` otherwise. -/
theorem addEvent_op_and_mask (st : IOManagerState) (fd event : Nat) (cb : Option Nat)
    (cur : Fiber) (fdc : FdContext) (hfd : fd < st.m_fdContexts.length)
    (hget : st.m_fdContexts[fd]? = some fdc) :
    (st.addEvent fd event cb cur).isSome →
      (st.addEvent fd event cb cur).map (fun r => r.2.2) =
        some (EPOLLET ||| EPOLLIN ||| EPOLLOUT) ∧
      (st.addEvent fd event cb cur).map (fun r => r.2.1) =
        some (if fdc.events ≠ NONE then EpollOp.MOD else EpollOp.ADD) := by
  intro hs
  rcases Option.isSome_iff_exists.mp hs with ⟨⟨st', op, mask⟩, h⟩
  rw [h]
  unfold IOManagerState.addEvent at h
  rw [if_pos hfd] at h
  dsimp only [] at h
  rw [hget] at h
  dsimp only [] at h
  by_cases hdup : fdc.events &&& event ≠ 0
  · rw [if_pos hdup] at h
    cases h
  · rw [if_neg hdup] at h
    rcases hec : fdc.getEventContext event with _ | ectx
    · rw [hec] at h
      cases h
    · rw [hec] at h
      dsimp only [] at h
      by_cases ha : (ectx.scheduler || ectx.fiber.isSome || ectx.cb.isSome) = true
      · rw [if_pos ha] at h
        cases h
      · rw [if_neg ha] at h
        by_cases hb : cb.isNone = true ∧ cur.m_state ≠ FiberState.RUNNING
        · rw [if_pos hb] at h
          cases h
        · rw [if_neg hb] at h
          simp only [Option.some.injEq, Prod.mk.injEq] at h
          obtain ⟨h1, h2, h3⟩ := h
          simp [← h2, ← h3]

/-- Witness for `addEvent_op_and_mask` at a concrete successful call. -/
theorem addEvent_op_and_mask_witness :
    (initIOMState.addEvent 3 READ (some 9) ⟨1, FiberState.RUNNING, true⟩).map
      (fun r => r.2.2) = some (EPOLLET ||| EPOLLIN ||| EPOLLOUT) ∧
    (initIOMState.addEvent 3 READ (some 9) ⟨1, FiberState.RUNNING, true⟩).map
      (fun r => r.2.1) =
      some (if (freshFdContext 3).events ≠ NONE then EpollOp.MOD else EpollOp.ADD) :=
  addEvent_op_and_mask initIOMState 3 READ (some 9) ⟨1, FiberState.RUNNING, true⟩
    (freshFdContext 3) (by decide) (by decide) (by decide)

/-- The state after `addEvent(0, READ, cb)` on the freshly constructed
reactor. -/
def stAfterAdd : Option IOManagerState :=
  (initIOMState.addEvent 0 READ (some 5) ⟨1, FiberState.RUNNING, true⟩).map (fun r => r.1)

/-- The state after `addEvent(0, READ, cb)` followed by
`triggerEvent(0, READ)` on the freshly constructed reactor. -/
def stAfterTrigger : Option IOManagerState :=
  stAfterAdd.bind (fun st => (st.triggerEvent 0 READ).map (fun r => r.1))

/-- C2 counterexample: starting from the constructor state, `addEvent`
registers one pair and increments the count (count 1, registered 1 — the
invariant holds), but `triggerEvent` clears the slot WITHOUT decrementing
`m_pendingEventCount` (ioscheduler.cpp:38-51 contains no decrement), leaving
count 1 against 0 registered pairs: the claimed invariant fails in a
reachable state. -/
theorem triggerEvent_breaks_pending_invariant :
    stAfterAdd.map (fun st => (st.m_pendingEventCount, st.registeredCount)) = some (1, 1) ∧
    stAfterTrigger.map (fun st => (st.m_pendingEventCount, st.registeredCount)) = some (1, 0) := by
  decide

/-- Replacing the entry at a valid index changes a summed per-entry statistic
by exactly the difference at that entry. -/
theorem sum_map_set (f : FdContext → Nat) :
    ∀ (l : List FdContext) (i : Nat) (a : FdContext), l[i]? = some a →
      ∀ x : FdContext, ((l.set i x).map f).sum + f a = (l.map f).sum + f x := by
  intro l
  induction l with
  | nil =>
    intro i a h x
    simp at h
  | cons y ys ih =>
    intro i a h x
    cases i with
    | zero =>
      rw [List.getElem?_cons_zero, Option.some.injEq] at h
      subst h
      simp only [List.set_cons_zero, List.map_cons, List.sum_cons]
      omega
    | succ n =>
      rw [List.getElem?_cons_succ] at h
      have := ih n a h x
      simp only [List.set_cons_succ, List.map_cons, List.sum_cons]
      omega

/-- Helper: `contextResize` to a size at least the current length preserves both the
pending count and the registered count: existing entries are kept, new slots
are fresh and empty. -/
theorem contextResize_counts (st : IOManagerState) (n : Nat)
    (h : st.m_fdContexts.length ≤ n) :
    (st.contextResize n).m_pendingEventCount = st.m_pendingEventCount ∧
    (st.contextResize n).registeredCount = st.registeredCount := by
  refine ⟨rfl, ?_⟩
  unfold IOManagerState.contextResize IOManagerState.registeredCount
  simp only [List.take_of_length_le h, List.map_append, List.sum_append, List.map_map]
  have hz : (((List.range n).drop (min st.m_fdContexts.length n)).map
      (FdContext.registeredCount ∘ freshFdContext)).sum = 0 := by
    apply List.sum_eq_zero
    intro x hx
    rcases List.mem_map.mp hx with ⟨i, _, rfl⟩
    rfl
  rw [hz]
  omega

/-- Helper: `getEventContext` succeeds only for READ and WRITE, and yields the
matching context. -/
theorem getEventContext_some_event {fdc : FdContext} {event : Nat} {ectx : EventContext}
    (h : fdc.getEventContext event = some ectx) :
    (event = READ ∧ ectx = fdc.read) ∨ (event = WRITE ∧ ectx = fdc.write) := by
  unfold FdContext.getEventContext at h
  by_cases h1 : event = READ
  · rw [if_pos h1] at h
    injection h with h'
    exact Or.inl ⟨h1, h'.symm⟩
  · rw [if_neg h1] at h
    by_cases h2 : event = WRITE
    · rw [if_pos h2] at h
      injection h with h'
      exact Or.inr ⟨h2, h'.symm⟩
    · rw [if_neg h2] at h
      cases h

/-- Replacing the event context at a registered slot trades its contribution
to `registeredCount` for that of the new context. -/
theorem registeredCount_set_ctx {fdc : FdContext} {event : Nat} {ectxOld : EventContext}
    (h : fdc.getEventContext event = some ectxOld) (e : Nat) (ectx' : EventContext) :
    (FdContext.setEventContext { fdc with events := e } event ectx').registeredCount +
      (if ectxOld.registered then 1 else 0) =
    fdc.registeredCount + (if ectx'.registered then 1 else 0) := by
  rcases getEventContext_some_event h with ⟨h1, h2⟩ | ⟨h1, h2⟩
  · subst h1
    subst h2
    simp only [FdContext.setEventContext, FdContext.registeredCount, READ, WRITE]
    norm_num
    omega
  · subst h1
    subst h2
    simp only [FdContext.setEventContext, FdContext.registeredCount, READ, WRITE]
    norm_num
    omega

/-- C2 amended: a successful `addEvent` increments `m_pendingEventCount` and
raises the number of registered (fd, event) pairs by one, preserving the
invariant `pending = registered`; `triggerEvent` moves the context into a
scheduler task and clears the slot and the interest bit, but leaves
`m_pendingEventCount` unchanged (the decrement is left to its caller), so
right after a trigger of a registered slot the count exceeds the number of
registered pairs by one. -/
theorem pending_count_semantics :
    (∀ st fd event cb cur st' op mask,
        IOManagerState.addEvent st fd event cb cur = some (st', op, mask) →
        st'.m_pendingEventCount = st.m_pendingEventCount + 1 ∧
        st'.registeredCount = st.registeredCount + 1) ∧
    (∀ st fd event st' task fdc ectx,
        st.m_fdContexts[fd]? = some fdc →
        fdc.getEventContext event = some ectx →
        IOManagerState.triggerEvent st fd event = some (st', task) →
        st'.m_pendingEventCount = st.m_pendingEventCount ∧
        st'.registeredCount + (if ectx.registered then 1 else 0) = st.registeredCount ∧
        (∃ fdc', st'.m_fdContexts[fd]? = some fdc' ∧
          fdc'.getEventContext event = some FdContext.resetEventContext)) := by
  constructor
  · intro st fd event cb cur st' op mask h
    unfold IOManagerState.addEvent at h
    dsimp only [] at h
    set st1 := if fd < st.m_fdContexts.length then st else st.contextResize (fd * 2) with hst1
    have hcounts : st1.m_pendingEventCount = st.m_pendingEventCount ∧
        st1.registeredCount = st.registeredCount := by
      rw [hst1]
      by_cases hfd : fd < st.m_fdContexts.length
      · rw [if_pos hfd]
        exact ⟨rfl, rfl⟩
      · rw [if_neg hfd]
        exact contextResize_counts st (fd * 2) (by omega)
    rcases hget : st1.m_fdContexts[fd]? with _ | fdc
    · rw [hget] at h
      cases h
    · rw [hget] at h
      dsimp only [] at h
      by_cases hdup : fdc.events &&& event ≠ 0
      · rw [if_pos hdup] at h
        cases h
      · rw [if_neg hdup] at h
        rcases hec : fdc.getEventContext event with _ | ectx
        · rw [hec] at h
          cases h
        · rw [hec] at h
          dsimp only [] at h
          by_cases ha : (ectx.scheduler || ectx.fiber.isSome || ectx.cb.isSome) = true
          · rw [if_pos ha] at h
            cases h
          · rw [if_neg ha] at h
            by_cases hb : cb.isNone = true ∧ cur.m_state ≠ FiberState.RUNNING
            · rw [if_pos hb] at h
              cases h
            · rw [if_neg hb] at h
              simp only [Option.some.injEq, Prod.mk.injEq] at h
              obtain ⟨h1, h2, h3⟩ := h
              rw [← h1]
              constructor
              · dsimp only []
                omega
              · unfold IOManagerState.registeredCount
                dsimp only []
                have hsum := sum_map_set FdContext.registeredCount st1.m_fdContexts fd fdc hget
                  (FdContext.setEventContext { fdc with events := fdc.events ||| event } event
                    ⟨true, if cb.isSome = true then none else some cur, cb⟩)
                have hstep := registeredCount_set_ctx hec (fdc.events ||| event)
                  ⟨true, if cb.isSome = true then none else some cur, cb⟩
                simp only [Bool.or_eq_true, not_or, Bool.not_eq_true] at ha
                have hro : (if ectx.registered = true then 1 else 0) = 0 := by
                  unfold EventContext.registered
                  rw [ha.1.2, ha.2]
                  rfl
                have hrn : (if (⟨true, if cb.isSome = true then none else some cur, cb⟩ :
                    EventContext).registered = true then 1 else 0) = 1 := by
                  unfold EventContext.registered
                  cases cb <;> rfl
                rw [hro, hrn] at hstep
                have hc2 := hcounts.2
                unfold IOManagerState.registeredCount at hc2
                omega
  · intro st fd event st' task fdc ectx hfdc hec htr
    unfold IOManagerState.triggerEvent at htr
    rw [hfdc] at htr
    dsimp only [] at htr
    by_cases hz : fdc.events &&& event = 0
    · unfold FdContext.triggerEvent at htr
      rw [if_pos hz] at htr
      cases htr
    · have hft : fdc.triggerEvent event =
          some (FdContext.setEventContext
              { fdc with events := fdc.events &&& (0xFFFFFFFF ^^^ event) } event
              FdContext.resetEventContext,
            if ectx.cb.isSome = true then ⟨none, ectx.cb, -1⟩ else ⟨ectx.fiber, none, -1⟩) := by
        unfold FdContext.triggerEvent
        rw [if_neg hz, hec]
      rw [hft] at htr
      dsimp only [] at htr
      simp only [Option.some.injEq, Prod.mk.injEq] at htr
      obtain ⟨h1, h2⟩ := htr
      refine ⟨?_, ?_, ?_⟩
      · rw [← h1]
      · rw [← h1]
        unfold IOManagerState.registeredCount
        dsimp only []
        have hsum := sum_map_set FdContext.registeredCount st.m_fdContexts fd fdc hfdc
          (FdContext.setEventContext
            { fdc with events := fdc.events &&& (0xFFFFFFFF ^^^ event) } event
            FdContext.resetEventContext)
        have hstep := registeredCount_set_ctx hec (fdc.events &&& (0xFFFFFFFF ^^^ event))
          FdContext.resetEventContext
        have hzero : (if FdContext.resetEventContext.registered = true then 1 else 0) = 0 := rfl
        rw [hzero] at hstep
        omega
      · have hlt : fd < st.m_fdContexts.length := (List.getElem?_eq_some.mp hfdc).1
        refine ⟨FdContext.setEventContext
            { fdc with events := fdc.events &&& (0xFFFFFFFF ^^^ event) } event
            FdContext.resetEventContext, ?_, ?_⟩
        · rw [← h1]
          dsimp only []
          simp [List.getElem?_set_self', hlt]
        · rcases getEventContext_some_event hec with ⟨he, _⟩ | ⟨he, _⟩ <;> subst he <;>
            simp [FdContext.setEventContext, FdContext.getEventContext, READ, WRITE]

/-- Witness for `pending_count_semantics`: a concrete `addEvent` on a
one-slot table followed by a concrete `triggerEvent`. -/
theorem pending_count_semantics_witness :
    ((⟨1, [⟨⟨true, none, some 5⟩, ⟨false, none, none⟩, 0, 1⟩]⟩ :
        IOManagerState).m_pendingEventCount =
      (⟨0, [freshFdContext 0]⟩ : IOManagerState).m_pendingEventCount + 1 ∧
      (⟨1, [⟨⟨true, none, some 5⟩, ⟨false, none, none⟩, 0, 1⟩]⟩ :
        IOManagerState).registeredCount =
      (⟨0, [freshFdContext 0]⟩ : IOManagerState).registeredCount + 1) ∧
    ((⟨1, [freshFdContext 0]⟩ : IOManagerState).m_pendingEventCount =
      (⟨1, [⟨⟨true, none, some 5⟩, ⟨false, none, none⟩, 0, 1⟩]⟩ :
        IOManagerState).m_pendingEventCount ∧
      (⟨1, [freshFdContext 0]⟩ : IOManagerState).registeredCount +
        (if (⟨true, none, some 5⟩ : EventContext).registered then 1 else 0) =
      (⟨1, [⟨⟨true, none, some 5⟩, ⟨false, none, none⟩, 0, 1⟩]⟩ :
        IOManagerState).registeredCount ∧
      (∃ fdc', (⟨1, [freshFdContext 0]⟩ : IOManagerState).m_fdContexts[0]? = some fdc' ∧
        fdc'.getEventContext READ = some FdContext.resetEventContext)) :=
  ⟨pending_count_semantics.1 ⟨0, [freshFdContext 0]⟩ 0 READ (some 5)
      ⟨1, FiberState.RUNNING, true⟩ ⟨1, [⟨⟨true, none, some 5⟩, ⟨false, none, none⟩, 0, 1⟩]⟩
      EpollOp.ADD 2147483653 (by decide),
    pending_count_semantics.2 ⟨1, [⟨⟨true, none, some 5⟩, ⟨false, none, none⟩, 0, 1⟩]⟩ 0 READ
      ⟨1, [freshFdContext 0]⟩ ⟨none, some 5, -1⟩
      ⟨⟨true, none, some 5⟩, ⟨false, none, none⟩, 0, 1⟩ ⟨true, none, some 5⟩
      (by decide) (by decide) (by decide)⟩

end Coroutine
